import Mathlib

/-!
Verification development for the gossip message raw decoder
(`gossip_tomography/inspect_raw.py`): feature-bit decoding, node/channel
announcement parsing, address-descriptor parsing, and the
latest-timestamp dedup / fingerprint-grouping reduction from `main`.

Byte strings are modelled as `List Nat` (each element a byte value
0..255 in the Python source).  Python slices `raw[a:b]` become
`pySlice` (silently truncating, as in Python); single-byte indexing
`data[i]`, which raises `IndexError` when out of bounds, is modelled
with `List.getElem?`, an out-of-bounds access propagating as `none`.
Python dicts become association lists that preserve insertion order
and update values in place, mirroring CPython dict semantics.
-/

/-- The BOLT 9 feature bit table `FEATURE_BITS` from the source:
bit index to feature name, `none` for absent keys. -/
def FEATURE_BITS : Nat → Option String
  | 0 => some "data_loss_protect"
  | 1 => some "data_loss_protect"
  | 4 => some "upfront_shutdown_script"
  | 5 => some "upfront_shutdown_script"
  | 6 => some "gossip_queries"
  | 7 => some "gossip_queries"
  | 8 => some "tlv_onion"
  | 9 => some "tlv_onion"
  | 10 => some "gossip_queries_ex"
  | 11 => some "gossip_queries_ex"
  | 12 => some "static_remote_key"
  | 13 => some "static_remote_key"
  | 14 => some "payment_secret"
  | 15 => some "payment_secret"
  | 16 => some "basic_mpp"
  | 17 => some "basic_mpp"
  | 18 => some "large_channels"
  | 19 => some "large_channels"
  | 20 => some "anchor_outputs"
  | 21 => some "anchor_outputs"
  | 22 => some "anchors_zero_fee_htlc_tx"
  | 23 => some "anchors_zero_fee_htlc_tx"
  | 24 => some "route_blinding"
  | 25 => some "route_blinding"
  | 26 => some "shutdown_anysegwit"
  | 27 => some "shutdown_anysegwit"
  | 28 => some "dual_fund"
  | 29 => some "dual_fund"
  | 44 => some "channel_type"
  | 45 => some "channel_type"
  | 46 => some "scid_alias"
  | 47 => some "scid_alias"
  | 48 => some "payment_metadata"
  | 49 => some "payment_metadata"
  | 50 => some "zero_conf"
  | 51 => some "zero_conf"
  | _ => none

/-- Feature-name lookup `FEATURE_BITS.get(bit, ...)` from `decode_features`, falling back to the `unknown_bit_` sentinel string. -/
def featName (bit : Nat) : String :=
  (FEATURE_BITS bit).getD ("unknown_bit_" ++ toString bit)

/-- Requirement level from `decode_features`: compulsory for an even bit index, optional for an odd one. -/
def featKind (bit : Nat) : String :=
  if bit % 2 = 0 then "compulsory" else "optional"

/-- Python dict assignment `d[k] = v`: overwrite in place when the key is
present (keeping its insertion position), append at the end otherwise. -/
def dictInsert (m : List (String × String)) (k v : String) : List (String × String) :=
  match m with
  | [] => [(k, v)]
  | (k1, v1) :: rest => if k1 = k then (k, v) :: rest else (k1, v1) :: dictInsert rest k v

/-- Big-endian integer of a byte string, `int.from_bytes(bs, "big")` (0 on the empty byte string). -/
def intFromBytesBE (l : List Nat) : Nat :=
  l.foldl (fun acc b => acc * 256 + b) 0

/-- The `while val > 0` loop of `decode_features`.  Python's loop needs no
fuel; here the first argument bounds the iteration count structurally.
Each iteration halves `val`, so `val` itself is always enough fuel
(`decode_features` passes exactly that), and a fuel-exhausted call can only
happen at `val = 0`, where it agrees with the loop's exit. -/
def decodeFeaturesGo : Nat → Nat → Nat → List (String × String) → List (String × String)
  | 0, _, _, features => features
  | fuel + 1, val, bit, features =>
    if val = 0 then features
    else
      decodeFeaturesGo fuel (val / 2) (bit + 1)
        (if val % 2 = 1 then dictInsert features (featName bit) (featKind bit) else features)

/-- Function `decode_features` from the source: big-endian integer of the bytes,
then one named entry per set bit, assigned into an insertion-ordered dict. -/
def decode_features (feat_bytes : List Nat) : List (String × String) :=
  decodeFeaturesGo (intFromBytesBE feat_bytes) (intFromBytesBE feat_bytes) 0 []

/-- Python slice `l[a:b]`: silently truncated at the ends, never failing. -/
def pySlice (l : List Nat) (a b : Nat) : List Nat :=
  (l.drop a).take (b - a)

/-- Two lowercase hex digits of one byte, as in `bytes.hex()` and `f"{b:02x}"`
(bytes are 0..255 in Python; `% 16` just makes the high nibble explicit). -/
def byteHexChars (b : Nat) : List Char :=
  [Nat.digitChar (b / 16 % 16), Nat.digitChar (b % 16)]

/-- Hex encoding `bs.hex()`: lowercase hex string, two digits per byte. -/
def bytesToHex (l : List Nat) : String :=
  String.mk ((l.map byteHexChars).flatten)

/-- Formatted hex of a single byte, two digits zero-padded. -/
def byteHexStr (b : Nat) : String :=
  String.mk (byteHexChars b)

/-- Python `bs.rstrip(b"\x00")`: drop trailing zero bytes. -/
def rstripZeros (l : List Nat) : List Nat :=
  (l.reverse.dropWhile (fun b => b == 0)).reverse

/-- Lower bound on the first continuation byte of a 3-byte UTF-8 sequence. -/
def utf8ThreeLo (b : Nat) : Nat := if b = 0xE0 then 0xA0 else 0x80

/-- Upper bound on the first continuation byte of a 3-byte UTF-8 sequence. -/
def utf8ThreeHi (b : Nat) : Nat := if b = 0xED then 0x9F else 0xBF

/-- Lower bound on the first continuation byte of a 4-byte UTF-8 sequence. -/
def utf8FourLo (b : Nat) : Nat := if b = 0xF0 then 0x90 else 0x80

/-- Upper bound on the first continuation byte of a 4-byte UTF-8 sequence. -/
def utf8FourHi (b : Nat) : Nat := if b = 0xF4 then 0x8F else 0xBF

/-- Models `bs.decode("utf-8", errors="replace")`.  Well-formed sequences
decode exactly as CPython does; a malformed or truncated sequence yields
U+FFFD and resumes one byte later (CPython's maximal-subpart rule can skip
further on some malformed tails; every alias exercised in this development
is plain ASCII, where the two coincide byte for byte).  The fuel argument
bounds the recursion structurally: every step consumes at least one byte,
so the byte count (passed by `pyDecodeUtf8`) always suffices, and fuel can
only run out on the empty list, where it agrees with the base case. -/
def utf8DecodeReplace : Nat → List Nat → List Char
  | 0, _ => []
  | _, [] => []
  | fuel + 1, b :: rest =>
    if b < 0x80 then Char.ofNat b :: utf8DecodeReplace fuel rest
    else if 0xC2 ≤ b ∧ b ≤ 0xDF then
      match rest with
      | c1 :: rest2 =>
        if 0x80 ≤ c1 ∧ c1 ≤ 0xBF then
          Char.ofNat ((b - 0xC0) * 64 + (c1 - 0x80)) :: utf8DecodeReplace fuel rest2
        else Char.ofNat 0xFFFD :: utf8DecodeReplace fuel rest
      | [] => [Char.ofNat 0xFFFD]
    else if 0xE0 ≤ b ∧ b ≤ 0xEF then
      match rest with
      | c1 :: c2 :: rest2 =>
        if (utf8ThreeLo b ≤ c1 ∧ c1 ≤ utf8ThreeHi b) ∧ (0x80 ≤ c2 ∧ c2 ≤ 0xBF) then
          Char.ofNat ((b - 0xE0) * 4096 + (c1 - 0x80) * 64 + (c2 - 0x80)) ::
            utf8DecodeReplace fuel rest2
        else Char.ofNat 0xFFFD :: utf8DecodeReplace fuel rest
      | _ => [Char.ofNat 0xFFFD]
    else if 0xF0 ≤ b ∧ b ≤ 0xF4 then
      match rest with
      | c1 :: c2 :: c3 :: rest2 =>
        if (utf8FourLo b ≤ c1 ∧ c1 ≤ utf8FourHi b) ∧ (0x80 ≤ c2 ∧ c2 ≤ 0xBF) ∧
            (0x80 ≤ c3 ∧ c3 ≤ 0xBF) then
          Char.ofNat ((b - 0xF0) * 262144 + (c1 - 0x80) * 4096 + (c2 - 0x80) * 64 + (c3 - 0x80)) ::
            utf8DecodeReplace fuel rest2
        else Char.ofNat 0xFFFD :: utf8DecodeReplace fuel rest
      | _ => [Char.ofNat 0xFFFD]
    else Char.ofNat 0xFFFD :: utf8DecodeReplace fuel rest

/-- Python `bs.decode("utf-8", errors="replace")` as a `String`. -/
def pyDecodeUtf8 (l : List Nat) : String :=
  String.mk (utf8DecodeReplace l.length l)

/-- One parsed address dict `{"type": ..., "addr": ...}` from `parse_addresses`. -/
structure Addr where
  type : String
  addr : String
deriving DecidableEq

/-- The IPv6 group reads `f"{data[off+i]:02x}{data[off+i+1]:02x}" for i in
range(0, 16, 2)`: the remaining group count is the recursion argument, and
each single-byte index is a `getElem?` read that propagates `none` on an
out-of-bounds access (Python would raise `IndexError`). -/
def ipv6GroupsGo (data : List Nat) : Nat → Nat → Option (List String)
  | _, 0 => some []
  | off, n + 1 =>
    match data[off]? with
    | none => none
    | some b1 =>
      match data[off + 1]? with
      | none => none
      | some b2 =>
        match ipv6GroupsGo data (off + 2) n with
        | none => none
        | some rest => some ((byteHexStr b1 ++ byteHexStr b2) :: rest)

/-- The `while off < len(data)` loop of `parse_addresses`.  The fuel
argument bounds the iteration count structurally; every iteration advances
`off` by at least one byte, so `data.length` iterations always suffice
(`parse_addresses` passes exactly that).  `none` models a Python exception
(out-of-bounds single-byte index, or the unreachable fuel exhaustion);
`some` is the list built so far, a `break` returning `some []` here and the
already-parsed prefix being consed on by the enclosing calls. -/
def parseAddressesGo (data : List Nat) : Nat → Nat → Option (List Addr)
  | fuel, off =>
    if off < data.length then
      match fuel with
      | 0 => none
      | fuel + 1 =>
        match data[off]? with
        | none => none
        | some t =>
          if t = 1 then
            if off + 1 + 6 > data.length then some []
            else
              let ip := String.intercalate "." ((pySlice data (off + 1) (off + 5)).map toString)
              let port := intFromBytesBE (pySlice data (off + 5) (off + 7))
              (parseAddressesGo data fuel (off + 7)).map
                (fun rest => { type := "ipv4", addr := ip ++ ":" ++ toString port } :: rest)
          else if t = 2 then
            if off + 1 + 18 > data.length then some []
            else
              match ipv6GroupsGo data (off + 1) 8 with
              | none => none
              | some groups =>
                let ip := String.intercalate ":" groups
                let port := intFromBytesBE (pySlice data (off + 17) (off + 19))
                (parseAddressesGo data fuel (off + 19)).map
                  (fun rest =>
                    { type := "ipv6", addr := "[" ++ ip ++ "]:" ++ toString port } :: rest)
          else if t = 3 then
            if off + 1 + 12 > data.length then some []
            else
              (parseAddressesGo data fuel (off + 13)).map
                (fun rest => { type := "torv2", addr := "torv2" } :: rest)
          else if t = 4 then
            if off + 1 + 37 > data.length then some []
            else
              (parseAddressesGo data fuel (off + 38)).map
                (fun rest => { type := "torv3", addr := "torv3_onion" } :: rest)
          else if t = 5 then
            if off + 1 + 1 > data.length then some []
            else
              match data[off + 1]? with
              | none => none
              | some hlen =>
                if off + 2 + hlen + 2 > data.length then some []
                else
                  let hostname := pyDecodeUtf8 (pySlice data (off + 2) (off + 2 + hlen))
                  let port := intFromBytesBE (pySlice data (off + 2 + hlen) (off + 2 + hlen + 2))
                  (parseAddressesGo data fuel (off + 2 + hlen + 2)).map
                    (fun rest =>
                      { type := "dns", addr := hostname ++ ":" ++ toString port } :: rest)
          else some []
    else some []

/-- Function `parse_addresses` from the source: BOLT 7 address descriptors, with
truncation and unknown tags as benign early termination. -/
def parse_addresses (data : List Nat) : Option (List Addr) :=
  parseAddressesGo data data.length 0

/-- The dict returned by `parse_node_announcement`. -/
structure NodeRecord where
  node_id : String
  «alias» : String
  rgb : String
  timestamp : Nat
  flen : Nat
  features_hex : String
  features : List (String × String)
  addresses : List Addr
  addr_types : List String
deriving DecidableEq

/-- Function `parse_node_announcement` from the source: stored format
`flen(2) + features(flen) + timestamp(4) + node_id(33) + rgb(3) + alias(32)
+ addrlen(2) + addresses(addrlen)`; `none` is Python's `None` (or a
propagated exception from `parse_addresses`, shown elsewhere to be
impossible). -/
def parse_node_announcement (raw : List Nat) : Option NodeRecord :=
  if raw.length < 2 + 4 + 33 + 3 + 32 + 2 then none
  else
    let flen := intFromBytesBE (pySlice raw 0 2)
    if 2 + flen + 4 + 33 + 3 + 32 + 2 > raw.length then none
    else
      let features := pySlice raw 2 (2 + flen)
      let timestamp := intFromBytesBE (pySlice raw (2 + flen) (2 + flen + 4))
      let node_id := bytesToHex (pySlice raw (2 + flen + 4) (2 + flen + 37))
      let rgb := bytesToHex (pySlice raw (2 + flen + 37) (2 + flen + 40))
      let aliasStr := pyDecodeUtf8 (rstripZeros (pySlice raw (2 + flen + 40) (2 + flen + 72)))
      let addrlen := intFromBytesBE (pySlice raw (2 + flen + 72) (2 + flen + 74))
      let addr_bytes := pySlice raw (2 + flen + 74) (2 + flen + 74 + addrlen)
      match parse_addresses addr_bytes with
      | none => none
      | some addresses =>
        some
          { node_id := node_id
            «alias» := aliasStr
            rgb := "#" ++ rgb
            timestamp := timestamp
            flen := flen
            features_hex := if features = [] then "" else bytesToHex features
            features := decode_features features
            addresses := addresses
            addr_types := addresses.map Addr.type }

/-- The dict returned by `parse_channel_announcement`. -/
structure ChannelRecord where
  scid : Nat
  node1 : String
  node2 : String
  flen : Nat
  features_hex : String
  features : List (String × String)
deriving DecidableEq

/-- Function `parse_channel_announcement` from the source: stored format
`flen(2) + features(flen) + chain_hash(32) + scid(8) + node1(33) + node2(33)
+ bitcoin1(33) + bitcoin2(33)`; only the fixed minimum length is checked,
all subsequent reads are silently-truncating slices. -/
def parse_channel_announcement (raw : List Nat) : Option ChannelRecord :=
  if raw.length < 2 + 32 + 8 + 33 * 4 then none
  else
    let flen := intFromBytesBE (pySlice raw 0 2)
    let features := pySlice raw 2 (2 + flen)
    let scid := intFromBytesBE (pySlice raw (2 + flen + 32) (2 + flen + 40))
    let node1 := bytesToHex (pySlice raw (2 + flen + 40) (2 + flen + 73))
    let node2 := bytesToHex (pySlice raw (2 + flen + 73) (2 + flen + 106))
    some
      { scid := scid
        node1 := node1
        node2 := node2
        flen := flen
        features_hex := if features = [] then "" else bytesToHex features
        features := decode_features features }

/-- First-match association-list lookup, i.e. Python dict indexing. -/
def lookupA {α : Type} : List (String × α) → String → Option α
  | [], _ => none
  | (k1, v) :: rest, k => if k1 = k then some v else lookupA rest k

/-- The value kept for a node id after one insertion, given the previously
stored record (if any): `parsed_nodes[nid] = result` happens when the key is
absent or the new timestamp is strictly greater. -/
def updVal : Option NodeRecord → NodeRecord → NodeRecord
  | none, r => r
  | some old, r => if old.timestamp < r.timestamp then r else old

/-- One iteration of the `main` dedup loop:
`if nid not in parsed_nodes or result["timestamp"] > parsed_nodes[nid]["timestamp"]:
parsed_nodes[nid] = result`, on an insertion-ordered dict. -/
def insertNode (m : List (String × NodeRecord)) (r : NodeRecord) : List (String × NodeRecord) :=
  match m with
  | [] => [(r.node_id, r)]
  | (k, v) :: rest =>
    if k = r.node_id then
      (k, if v.timestamp < r.timestamp then r else v) :: rest
    else (k, v) :: insertNode rest r

/-- The whole `parsed_nodes` accumulation over a batch of decoded records. -/
def foldNodes (recs : List NodeRecord) : List (String × NodeRecord) :=
  recs.foldl insertNode []

/-- Reference fold for reasoning about `foldNodes`: the record surviving at
key `k` given a seed value, stepping through a record batch. -/
def bestAt (k : String) (cur : Option NodeRecord) (recs : List NodeRecord) : Option NodeRecord :=
  recs.foldl (fun c r => if r.node_id = k then some (updVal c r) else c) cur

/-- One iteration of the `main` fingerprint grouping:
`fprint_groups.setdefault(key, []).append(nid)` on an insertion-ordered dict. -/
def addToGroup (gs : List (String × List String)) (key nid : String) :
    List (String × List String) :=
  match gs with
  | [] => [(key, [nid])]
  | (k, l) :: rest =>
    if k = key then (k, l ++ [nid]) :: rest else (k, l) :: addToGroup rest key nid

/-- The whole `fprint_groups` accumulation over the surviving
`parsed_nodes` items (pairs of node id and record, in dict order). -/
def fingerprintGroups (nodes : List (String × NodeRecord)) : List (String × List String) :=
  nodes.foldl (fun gs p => addToGroup gs p.2.features_hex p.1) []

/-- Channel announcement payload of exactly the fixed minimum length
(174 bytes) whose `flen` field 0xFFFF implies a features read far past the
buffer end. -/
def chanOverrunPayload : List Nat := 255 :: 255 :: List.replicate 172 0

/-- Node announcement payload of exactly the fixed minimum length
(76 bytes) with `flen = 0` and `addrlen = 5`, so the address read passes
the buffer end. -/
def nodeAddrlenOverrunPayload : List Nat :=
  [0, 0] ++ [0, 0, 0, 1] ++ List.replicate 33 0 ++ List.replicate 3 0 ++
    List.replicate 32 0 ++ [0, 5]

/-- The end-to-end node announcement test payload from the specification,
byte for byte as written there: `0002 0002 00000001`, 33 zero bytes,
3 zero bytes, "Test" padded with zero bytes to 32, then `0006 01 7F000001
2607` (85 bytes in total; the `addrlen` field is 0x0006 while the IPv4
descriptor after it is 7 bytes long). -/
def specNodePayload : List Nat :=
  [0, 2] ++ [0, 2] ++ [0, 0, 0, 1] ++ List.replicate 33 0 ++ List.replicate 3 0 ++
    ([84, 101, 115, 116] ++ List.replicate 28 0) ++ [0, 6] ++ [1, 127, 0, 0, 1, 38, 7]

/-- The same test payload with the `addrlen` field corrected to 0x0007,
the actual length of the IPv4 descriptor (85 bytes in total, like the
original). -/
def specNodePayloadFixed : List Nat :=
  [0, 2] ++ [0, 2] ++ [0, 0, 0, 1] ++ List.replicate 33 0 ++ List.replicate 3 0 ++
    ([84, 101, 115, 116] ++ List.replicate 28 0) ++ [0, 7] ++ [1, 127, 0, 0, 1, 38, 7]

/-- A minimal node record for concrete dedup and fingerprint scenarios. -/
def mkRecord (nid aliasStr : String) (ts : Nat) (fhex : String) : NodeRecord :=
  { node_id := nid
    «alias» := aliasStr
    rgb := "#000000"
    timestamp := ts
    flen := 0
    features_hex := fhex
    features := []
    addresses := []
    addr_types := [] }

/-- Reference model of the specification's IPv6 rendering (§4.3): 8 groups
of 2 bytes, each group two zero-padded hex bytes; the group count is the
recursion argument.  Callers only use it with at least 2·n bytes present,
so the fewer-than-two-bytes fallback is never reached there. -/
def specIpv6Groups : Nat → List Nat → List String
  | 0, _ => []
  | n + 1, b1 :: b2 :: l => (byteHexStr b1 ++ byteHexStr b2) :: specIpv6Groups n l
  | _ + 1, [] => []
  | _ + 1, [_] => []

/-- Reference model, written to the specification's words (§4.3): the one
descriptor fully readable at the front of the byte string, with the bytes
remaining after it — or `none` exactly when the tag byte is not one of
{1,2,3,4,5} or the remaining bytes are insufficient for the declared body
length (for tag 5, the 1-byte hostname length plus `hlen` hostname bytes
plus the 2-byte port). -/
def specAddrOne : List Nat → Option (Addr × List Nat)
  | [] => none
  | t :: rest =>
    if t = 1 then
      if rest.length < 6 then none
      else
        some (Addr.mk "ipv4"
          (String.intercalate "." ((rest.take 4).map toString) ++ ":" ++
            toString (intFromBytesBE (pySlice rest 4 6))), rest.drop 6)
    else if t = 2 then
      if rest.length < 18 then none
      else
        some (Addr.mk "ipv6"
          ("[" ++ String.intercalate ":" (specIpv6Groups 8 rest) ++ "]:" ++
            toString (intFromBytesBE (pySlice rest 16 18))), rest.drop 18)
    else if t = 3 then
      if rest.length < 12 then none
      else some (Addr.mk "torv2" "torv2", rest.drop 12)
    else if t = 4 then
      if rest.length < 37 then none
      else some (Addr.mk "torv3" "torv3_onion", rest.drop 37)
    else if t = 5 then
      match rest with
      | [] => none
      | hlen :: rest2 =>
        if rest2.length < hlen + 2 then none
        else
          some (Addr.mk "dns"
            (pyDecodeUtf8 (rest2.take hlen) ++ ":" ++
              toString (intFromBytesBE (pySlice rest2 hlen (hlen + 2)))), rest2.drop (hlen + 2))
    else none

/-- Reference model of the whole address list (§4.3's loop invariant): read
descriptors while one is fully readable at the front, and stop — returning
the descriptors accumulated so far — as soon as none is.  Each step consumes
at least the tag byte, so the byte count bounds the iterations. -/
def specAddrListGo : Nat → List Nat → List Addr
  | 0, _ => []
  | fuel + 1, l =>
    match specAddrOne l with
    | none => []
    | some (a, rest) => a :: specAddrListGo fuel rest

/-- Reference model of `parse_addresses`: exactly the descriptors fully
readable before the first unreadable point. -/
def specAddressList (l : List Nat) : List Addr :=
  specAddrListGo l.length l

/-- Every single-byte read of the IPv6 group formatter is in bounds (and so
the formatter succeeds) whenever 2·n bytes remain from `off`. -/
theorem ipv6GroupsGo_isSome (data : List Nat) :
    ∀ n off, off + 2 * n ≤ data.length → (ipv6GroupsGo data off n).isSome := by
  intro n
  induction n with
  | zero => intro off h; simp [ipv6GroupsGo]
  | succ n ih =>
    intro off h
    have h1 : off < data.length := by omega
    have h2 : off + 1 < data.length := by omega
    have hb1 : data[off]? = some data[off] := List.getElem?_eq_getElem h1
    have hb2 : data[off + 1]? = some data[off + 1] := List.getElem?_eq_getElem h2
    obtain ⟨rest, hrest⟩ := Option.isSome_iff_exists.mp (ih (off + 2) (by omega))
    simp [ipv6GroupsGo, hb1, hb2, hrest]

/-- The address-list loop always returns a value (never a Python exception,
never fuel exhaustion) when the fuel covers the remaining byte count. -/
theorem parseAddressesGo_isSome (data : List Nat) :
    ∀ fuel off, data.length - off ≤ fuel → (parseAddressesGo data fuel off).isSome := by
  intro fuel
  induction fuel with
  | zero =>
    intro off h
    have hge : ¬ off < data.length := by omega
    rw [parseAddressesGo]
    simp [hge]
  | succ fuel ih =>
    intro off h
    rw [parseAddressesGo]
    by_cases hlt : off < data.length
    · have ht : data[off]? = some data[off] := List.getElem?_eq_getElem hlt
      simp only [hlt, if_true, ht]
      by_cases h1 : data[off] = 1
      · simp only [h1, if_true]
        by_cases g : off + 1 + 6 > data.length
        · simp [g]
        · obtain ⟨l, hl⟩ := Option.isSome_iff_exists.mp (ih (off + 7) (by omega))
          simp [g, hl]
      · simp only [h1, if_false]
        by_cases h2 : data[off] = 2
        · simp only [h2, if_true]
          by_cases g : off + 1 + 18 > data.length
          · simp [g]
          · obtain ⟨gs, hgs⟩ :=
              Option.isSome_iff_exists.mp (ipv6GroupsGo_isSome data 8 (off + 1) (by omega))
            obtain ⟨l, hl⟩ := Option.isSome_iff_exists.mp (ih (off + 19) (by omega))
            simp [g, hgs, hl]
        · simp only [h2, if_false]
          by_cases h3 : data[off] = 3
          · simp only [h3, if_true]
            by_cases g : off + 1 + 12 > data.length
            · simp [g]
            · obtain ⟨l, hl⟩ := Option.isSome_iff_exists.mp (ih (off + 13) (by omega))
              simp [g, hl]
          · simp only [h3, if_false]
            by_cases h4 : data[off] = 4
            · simp only [h4, if_true]
              by_cases g : off + 1 + 37 > data.length
              · simp [g]
              · obtain ⟨l, hl⟩ := Option.isSome_iff_exists.mp (ih (off + 38) (by omega))
                simp [g, hl]
            · simp only [h4, if_false]
              by_cases h5 : data[off] = 5
              · simp only [h5, if_true]
                by_cases g : off + 1 + 1 > data.length
                · simp [g]
                · have hh : off + 1 < data.length := by omega
                  have hb : data[off + 1]? = some data[off + 1] := List.getElem?_eq_getElem hh
                  simp only [g, if_false, hb]
                  by_cases g2 : off + 2 + data[off + 1] + 2 > data.length
                  · simp [g2]
                  · obtain ⟨l, hl⟩ :=
                      Option.isSome_iff_exists.mp (ih (off + 2 + data[off + 1] + 2) (by omega))
                    simp [g2, hl]
              · simp [h5]
    · simp [hlt]

/-- Existence form of the totality of `parse_addresses`. -/
theorem parse_addresses_eq_some (data : List Nat) : ∃ l, parse_addresses data = some l := by
  exact Option.isSome_iff_exists.mp
    (parseAddressesGo_isSome data data.length 0 (by omega))

/-- C10: `parse_addresses` is total on arbitrary byte strings: the loop
terminates and every single-byte index access is within bounds, so it never
raises for any input (modelled: it never returns the `none` that stands for
a Python exception, and the iteration-count bound `data.length` is never
exhausted). -/
theorem c10_parse_addresses_total (data : List Nat) : (parse_addresses data).isSome = true :=
  parseAddressesGo_isSome data data.length 0 (by omega)

set_option maxRecDepth 16384

/-- C9: `decode_features` applied to the zero-length byte string returns an
empty feature mapping, and a minimal node announcement with `flen = 0`
decodes with an empty `features` map and empty `features_hex`; both are
normal results of total functions, never a failure. -/
theorem c9_empty_feature_bytes :
    decode_features [] = [] ∧
    (parse_node_announcement (List.replicate 76 0)).map
      (fun r => (r.features, r.features_hex)) = some ([], "") := by
  decide

/-- C1 counterexample: a 174-byte channel announcement payload (exactly the
fixed minimum 2+32+8+4·33) whose `flen` field is 0xFFFF, so the 2-byte
`flen` implies a features read far past the buffer end; yet
`parse_channel_announcement` returns a populated record rather than a
failure, reading silently-truncated slices. -/
theorem c1_counterexample :
    chanOverrunPayload.length = 2 + 32 + 8 + 33 * 4 ∧
    2 + intFromBytesBE (pySlice chanOverrunPayload 0 2) > chanOverrunPayload.length ∧
    (parse_channel_announcement chanOverrunPayload).isSome = true := by
  decide

/-- C1 (amended): `parse_channel_announcement` fails (returns `None`) if and
only if the payload is shorter than the fixed minimum 2+32+8+4·33 bytes; an
`flen` implying a read past the buffer end does not cause a failure — the
features and all subsequent fields are read as silently truncated slices. -/
theorem c1_amended (raw : List Nat) :
    parse_channel_announcement raw = none ↔ raw.length < 2 + 32 + 8 + 33 * 4 := by
  unfold parse_channel_announcement
  split
  case isTrue h => simp [h]
  case isFalse h => simp [h]

/-- C2 counterexample: a 76-byte node announcement payload (exactly the
fixed-field minimum) with `flen = 0` and `addrlen = 5`, so the `addrlen`
field implies an address read past the buffer end; yet
`parse_node_announcement` returns a populated record, the address bytes
being silently truncated. -/
theorem c2_counterexample :
    nodeAddrlenOverrunPayload.length = 2 + 4 + 33 + 3 + 32 + 2 ∧
    intFromBytesBE (pySlice nodeAddrlenOverrunPayload 74 76) = 5 ∧
    (parse_node_announcement nodeAddrlenOverrunPayload).isSome = true := by
  decide

/-- C2 (amended): `parse_node_announcement` fails (returns `None`) exactly
when the buffer is shorter than the fixed-field minimum of 2+4+33+3+32+2
bytes, or the `flen` field would push the fixed fields after the features
past the buffer end; an out-of-range `addrlen` does not cause a failure —
the address bytes are silently truncated and the address parser stops
early. -/
theorem c2_amended (raw : List Nat) :
    parse_node_announcement raw = none ↔
      raw.length < 2 + 4 + 33 + 3 + 32 + 2 ∨
        2 + intFromBytesBE (pySlice raw 0 2) + 4 + 33 + 3 + 32 + 2 > raw.length := by
  unfold parse_node_announcement
  split
  case isTrue h => simp [h]
  case isFalse h =>
    by_cases h2 : 2 + intFromBytesBE (pySlice raw 0 2) + 4 + 33 + 3 + 32 + 2 > raw.length
    case pos => simp [h, h2]
    case neg =>
      obtain ⟨l, hl⟩ := parse_addresses_eq_some
        (pySlice raw (2 + intFromBytesBE (pySlice raw 0 2) + 74)
          (2 + intFromBytesBE (pySlice raw 0 2) + 74 +
            intFromBytesBE (pySlice raw (2 + intFromBytesBE (pySlice raw 0 2) + 72)
              (2 + intFromBytesBE (pySlice raw 0 2) + 74))))
      simp [hl, h, h2]

/-- C8 counterexample: the spec's end-to-end payload, taken byte for byte as
written (with its `addrlen` field 0x0006), is 85 bytes long — not 78 — and
decodes with `addresses = []`, because the 6-byte address slice cuts off the
7-byte IPv4 descriptor (1 tag + 4 address + 2 port bytes), not to the
claimed one-element IPv4 list. -/
theorem c8_counterexample :
    specNodePayload.length = 85 ∧
    (parse_node_announcement specNodePayload).map
      (fun r => (r.flen, r.features, r.timestamp, r.«alias», r.addresses)) =
      some (2, [("data_loss_protect", "optional")], 1, "Test", []) := by
  decide

/-- C8 (amended): with the `addrlen` field corrected to 0x0007 — the actual
length of the IPv4 descriptor — the 85-byte payload `0002 0002 00000001
<33 zero bytes> <3 zero bytes> "Test"+pad-to-32 0007 01 7F000001 2607`
decodes to a record with `flen = 2`, features mapping `data_loss_protect`
to optional, `timestamp = 1`, `alias = "Test"`, and addresses equal to the
one-element list of an IPv4 descriptor for 127.0.0.1:9735. -/
theorem c8_amended :
    specNodePayloadFixed.length = 85 ∧
    (parse_node_announcement specNodePayloadFixed).map
      (fun r => (r.flen, r.features, r.timestamp, r.«alias», r.addresses)) =
      some (2, [("data_loss_protect", "optional")], 1, "Test",
        [{ type := "ipv4", addr := "127.0.0.1:9735" }]) := by
  decide

/-- C3 counterexample: the one-byte bitmap 0x03 has both bits of the
`data_loss_protect` even/odd pair set (two set bits), yet `decode_features`
returns a single-entry mapping — not one pair per set bit — because the two
bits share one feature name and the second assignment overwrites the
first. -/
theorem c3_counterexample :
    (decode_features [3]).length = 1 ∧
    ((List.range 8).filter (fun b => (intFromBytesBE [3]).testBit b)).length = 2 ∧
    decode_features [3] = [("data_loss_protect", "optional")] := by
  decide

/-- Lookup after one dedup insertion: the inserted key maps to the winner of
`updVal`, every other key is untouched. -/
theorem lookupA_insertNode (m : List (String × NodeRecord)) (r : NodeRecord) (k : String) :
    lookupA (insertNode m r) k =
      if r.node_id = k then some (updVal (lookupA m k) r) else lookupA m k := by
  induction m with
  | nil =>
    by_cases hk : r.node_id = k
    · simp [insertNode, lookupA, hk, updVal]
    · simp [insertNode, lookupA, hk]
  | cons hd tl ih =>
    obtain ⟨k1, v⟩ := hd
    by_cases h1 : k1 = r.node_id
    · by_cases hk : k1 = k
      · have hr : r.node_id = k := h1.symm.trans hk
        simp [insertNode, lookupA, h1, hk, hr, updVal]
      · have hr : ¬ r.node_id = k := by rw [← h1]; exact hk
        simp [insertNode, lookupA, h1, hk, hr]
    · by_cases hk : k1 = k
      · have hr : ¬ r.node_id = k := fun hh => h1 (hk.trans hh.symm)
        have h1k : ¬ k = r.node_id := fun hh => hr hh.symm
        simp [insertNode, lookupA, hk, h1k, hr]
      · simp [insertNode, lookupA, h1, hk, ih]

/-- Keys after one dedup insertion: unchanged when the node id is already
present, appended at the end otherwise. -/
theorem keys_insertNode (m : List (String × NodeRecord)) (r : NodeRecord) :
    (insertNode m r).map Prod.fst =
      if r.node_id ∈ m.map Prod.fst then m.map Prod.fst
      else m.map Prod.fst ++ [r.node_id] := by
  induction m with
  | nil => simp [insertNode]
  | cons hd tl ih =>
    obtain ⟨k1, v⟩ := hd
    by_cases h1 : k1 = r.node_id
    · subst h1
      simp [insertNode]
    · have hne : ¬ r.node_id = k1 := fun hh => h1 hh.symm
      by_cases hmem : r.node_id ∈ tl.map Prod.fst
      · simp [insertNode, h1, hne, hmem, ih]
      · simp [insertNode, h1, hne, hmem, ih]

/-- The dedup fold keeps the key list duplicate-free. -/
theorem keys_foldNodes_nodup (recs : List NodeRecord) :
    ∀ acc : List (String × NodeRecord), (acc.map Prod.fst).Nodup →
      ((List.foldl insertNode acc recs).map Prod.fst).Nodup := by
  induction recs with
  | nil => intro acc h; simpa using h
  | cons r rs ih =>
    intro acc h
    rw [List.foldl_cons]
    refine ih _ ?_
    rw [keys_insertNode]
    by_cases hmem : r.node_id ∈ acc.map Prod.fst
    · simpa [hmem] using h
    · simp only [hmem, if_false]
      simp [List.nodup_append, h, hmem]

/-- Unfolding of one step of the reference fold. -/
theorem bestAt_cons (k : String) (cur : Option NodeRecord) (r : NodeRecord)
    (rs : List NodeRecord) :
    bestAt k cur (r :: rs) =
      bestAt k (if r.node_id = k then some (updVal cur r) else cur) rs := rfl

/-- Every lookup into the dedup fold is described by the reference fold. -/
theorem foldNodes_lookup (recs : List NodeRecord) :
    ∀ (acc : List (String × NodeRecord)) (k : String),
      lookupA (List.foldl insertNode acc recs) k = bestAt k (lookupA acc k) recs := by
  induction recs with
  | nil => intro acc k; rfl
  | cons r rs ih =>
    intro acc k
    rw [List.foldl_cons, ih, bestAt_cons, lookupA_insertNode]

/-- The reference fold keeps a record whose timestamp dominates every
matching input record and every seed value, and which comes from the seed
or the inputs. -/
theorem bestAt_spec (k : String) (recs : List NodeRecord) :
    ∀ (cur : Option NodeRecord) (r : NodeRecord), bestAt k cur recs = some r →
      (cur = some r ∨ (r ∈ recs ∧ r.node_id = k)) ∧
      (∀ x ∈ recs, x.node_id = k → x.timestamp ≤ r.timestamp) ∧
      (∀ c, cur = some c → c.timestamp ≤ r.timestamp) := by
  induction recs with
  | nil =>
    intro cur r h
    have h' : cur = some r := h
    refine ⟨Or.inl h', by simp, ?_⟩
    intro c hc
    rw [h'] at hc
    injection hc with hc
    rw [hc]
  | cons x xs ih =>
    intro cur r h
    rw [bestAt_cons] at h
    by_cases hx : x.node_id = k
    · rw [if_pos hx] at h
      have H := ih _ r h
      have hseed : (updVal cur x).timestamp ≤ r.timestamp := H.2.2 _ rfl
      have hxval : x.timestamp ≤ (updVal cur x).timestamp := by
        cases cur with
        | none => exact le_refl _
        | some old =>
          simp only [updVal]
          split
          · exact le_refl _
          · omega
      refine ⟨?_, ?_, ?_⟩
      · rcases H.1 with h1 | h1
        · injection h1 with h1
          cases cur with
          | none => exact Or.inr ⟨by rw [← h1]; exact List.mem_cons_self _ _, by rw [← h1]; exact hx⟩
          | some old =>
            simp only [updVal] at h1
            by_cases hlt : old.timestamp < x.timestamp
            · rw [if_pos hlt] at h1
              exact Or.inr ⟨by rw [← h1]; exact List.mem_cons_self _ _, by rw [← h1]; exact hx⟩
            · rw [if_neg hlt] at h1
              exact Or.inl (by rw [h1])
        · exact Or.inr ⟨List.mem_cons_of_mem _ h1.1, h1.2⟩
      · intro y hy hyk
        rcases List.mem_cons.mp hy with rfl | hmem
        · exact le_trans hxval hseed
        · exact H.2.1 y hmem hyk
      · intro c hc
        have hc2 : c.timestamp ≤ (updVal cur x).timestamp := by
          rw [hc]
          simp only [updVal]
          split
          · omega
          · exact le_refl _
        exact le_trans hc2 hseed
    · rw [if_neg hx] at h
      have H := ih cur r h
      refine ⟨?_, ?_, H.2.2⟩
      · rcases H.1 with h1 | h1
        · exact Or.inl h1
        · exact Or.inr ⟨List.mem_cons_of_mem _ h1.1, h1.2⟩
      · intro y hy hyk
        rcases List.mem_cons.mp hy with rfl | hmem
        · exact absurd hyk hx
        · exact H.2.1 y hmem hyk

/-- C4: for every sequence of decoded node records fed into the dedup index,
at most one record per node id survives (the key list is duplicate-free),
and the survivor for a node id is one of the inputs with that node id whose
timestamp is greatest among all inputs carrying that node id. -/
theorem c4_latest_timestamp_survives (recs : List NodeRecord) :
    ((foldNodes recs).map Prod.fst).Nodup ∧
    ∀ nid r, lookupA (foldNodes recs) nid = some r →
      r ∈ recs ∧ r.node_id = nid ∧
        ∀ x ∈ recs, x.node_id = nid → x.timestamp ≤ r.timestamp := by
  constructor
  · exact keys_foldNodes_nodup recs [] (by simp)
  · intro nid r h
    rw [foldNodes, foldNodes_lookup recs [] nid] at h
    have H := bestAt_spec nid recs (lookupA [] nid) r h
    rcases H.1 with h1 | h1
    · exact absurd h1 (by simp [lookupA])
    · exact ⟨h1.1, h1.2, H.2.1⟩

/-- C4 witness: two records for node id "aa" with timestamps 100 and 200,
inserted in either order; in both cases the survivor found in the index is
the timestamp-200 record, and its timestamp dominates both inputs. -/
theorem c4_witness :
    (mkRecord "aa" "" 200 "").timestamp = 200 ∧
    (mkRecord "aa" "" 200 "" ∈ [mkRecord "aa" "" 100 "", mkRecord "aa" "" 200 ""] ∧
      (mkRecord "aa" "" 200 "").node_id = "aa" ∧
      ∀ x ∈ [mkRecord "aa" "" 100 "", mkRecord "aa" "" 200 ""], x.node_id = "aa" →
        x.timestamp ≤ (mkRecord "aa" "" 200 "").timestamp) ∧
    (mkRecord "aa" "" 200 "" ∈ [mkRecord "aa" "" 200 "", mkRecord "aa" "" 100 ""] ∧
      (mkRecord "aa" "" 200 "").node_id = "aa" ∧
      ∀ x ∈ [mkRecord "aa" "" 200 "", mkRecord "aa" "" 100 ""], x.node_id = "aa" →
        x.timestamp ≤ (mkRecord "aa" "" 200 "").timestamp) :=
  ⟨rfl,
    (c4_latest_timestamp_survives [mkRecord "aa" "" 100 "", mkRecord "aa" "" 200 ""]).2
      "aa" (mkRecord "aa" "" 200 "") (by decide),
    (c4_latest_timestamp_survives [mkRecord "aa" "" 200 "", mkRecord "aa" "" 100 ""]).2
      "aa" (mkRecord "aa" "" 200 "") (by decide)⟩

/-- C5 counterexample: two records with the same node id and the same
timestamp but different aliases; folding them into the empty accumulator in
the two orders yields accumulators that differ even under dict equality
(the lookups at the shared key disagree), because the tie keeps whichever
record was inserted first. -/
theorem c5_counterexample :
    lookupA (foldNodes [mkRecord "n" "x" 5 "", mkRecord "n" "y" 5 ""]) "n" ≠
      lookupA (foldNodes [mkRecord "n" "y" 5 "", mkRecord "n" "x" 5 ""]) "n" := by
  decide

/-- C5 (amended): the dedup accumulation step is commutative as a map (all
lookups agree, i.e. Python dict equality) for any two records whose node
ids differ or whose timestamps differ strictly, over any starting
accumulator; only an exact tie — equal node id and equal timestamp — is
order-dependent, the first-inserted record winning. -/
theorem c5_amended (m : List (String × NodeRecord)) (r1 r2 : NodeRecord)
    (h : r1.node_id ≠ r2.node_id ∨ r1.timestamp ≠ r2.timestamp) (k : String) :
    lookupA (insertNode (insertNode m r1) r2) k =
      lookupA (insertNode (insertNode m r2) r1) k := by
  rw [lookupA_insertNode, lookupA_insertNode, lookupA_insertNode, lookupA_insertNode]
  by_cases h2 : r2.node_id = k <;> by_cases h1 : r1.node_id = k
  · have hts : r1.timestamp ≠ r2.timestamp := by
      rcases h with hn | ht
      · exact absurd (h1.trans h2.symm) hn
      · exact ht
    cases hc : lookupA m k with
    | none =>
      simp only [h1, h2, if_true, hc, updVal]
      split_ifs <;> first | rfl | omega
    | some old =>
      simp only [h1, h2, if_true, hc, updVal]
      split_ifs <;> first | rfl | omega
  · simp [h1, h2]
  · simp [h1, h2]
  · simp [h1, h2]

/-- C5 witness: two records with distinct node ids folded in either order
into the empty accumulator give accumulators that agree at a key. -/
theorem c5_witness :
    lookupA (insertNode (insertNode [] (mkRecord "a" "" 1 "")) (mkRecord "b" "" 1 "")) "a" =
      lookupA (insertNode (insertNode [] (mkRecord "b" "" 1 "")) (mkRecord "a" "" 1 "")) "a" :=
  c5_amended [] (mkRecord "a" "" 1 "") (mkRecord "b" "" 1 "") (Or.inl (by decide)) "a"

/-- Lookup after one `setdefault(...).append(...)` step: the appended key's
list grows by the node id at the end, every other key is untouched. -/
theorem lookupA_addToGroup (gs : List (String × List String)) (key nid k : String) :
    lookupA (addToGroup gs key nid) k =
      if key = k then some ((lookupA gs k).getD [] ++ [nid]) else lookupA gs k := by
  induction gs with
  | nil =>
    by_cases hk : key = k
    · simp [addToGroup, lookupA, hk]
    · simp [addToGroup, lookupA, hk]
  | cons hd tl ih =>
    obtain ⟨k1, l⟩ := hd
    by_cases h1 : k1 = key
    · by_cases hk : k1 = k
      · have hkey : key = k := h1.symm.trans hk
        simp [addToGroup, lookupA, h1, hk, hkey]
      · have hkey : ¬ key = k := by rw [← h1]; exact hk
        simp [addToGroup, lookupA, h1, hk, hkey]
    · by_cases hk : k1 = k
      · have hkey : ¬ key = k := fun hh => h1 (hk.trans hh.symm)
        have hkey2 : ¬ k = key := fun hh => hkey hh.symm
        simp [addToGroup, lookupA, h1, hk, hkey, hkey2]
      · simp [addToGroup, lookupA, h1, hk, ih]

/-- Keys after one grouping step: unchanged when the fingerprint key is
already present, appended at the end otherwise. -/
theorem keys_addToGroup (gs : List (String × List String)) (key nid : String) :
    (addToGroup gs key nid).map Prod.fst =
      if key ∈ gs.map Prod.fst then gs.map Prod.fst else gs.map Prod.fst ++ [key] := by
  induction gs with
  | nil => simp [addToGroup]
  | cons hd tl ih =>
    obtain ⟨k1, l⟩ := hd
    by_cases h1 : k1 = key
    · simp [addToGroup, h1]
    · have hne : ¬ key = k1 := fun hh => h1 hh.symm
      by_cases hmem : key ∈ tl.map Prod.fst
      · simp [addToGroup, h1, hne, hmem, ih]
      · simp [addToGroup, h1, hne, hmem, ih]

/-- The grouping fold keeps the fingerprint key list duplicate-free. -/
theorem keys_groupsFold_nodup (nodes : List (String × NodeRecord)) :
    ∀ acc : List (String × List String), (acc.map Prod.fst).Nodup →
      ((nodes.foldl (fun gs p => addToGroup gs p.2.features_hex p.1) acc).map Prod.fst).Nodup := by
  induction nodes with
  | nil => intro acc h; simpa using h
  | cons p ps ih =>
    intro acc h
    rw [List.foldl_cons]
    refine ih _ ?_
    rw [keys_addToGroup]
    by_cases hmem : p.2.features_hex ∈ acc.map Prod.fst
    · simpa [hmem] using h
    · simp only [hmem, if_false]
      simp [List.nodup_append, h, hmem]

/-- Member-list characterization of the grouping fold: the list stored
under a fingerprint key consists of the seed's entries followed by the node
ids of exactly the records whose `features_hex` equals that key, in input
order. -/
theorem groupsFold_lookup (nodes : List (String × NodeRecord)) :
    ∀ (acc : List (String × List String)) (k : String),
      (lookupA (nodes.foldl (fun gs p => addToGroup gs p.2.features_hex p.1) acc) k).getD [] =
        (lookupA acc k).getD [] ++
          (nodes.filter (fun p => p.2.features_hex == k)).map Prod.fst := by
  induction nodes with
  | nil => intro acc k; simp
  | cons p ps ih =>
    intro acc k
    rw [List.foldl_cons, ih]
    by_cases hk : p.2.features_hex = k
    · simp [lookupA_addToGroup, hk, List.filter_cons]
    · simp [lookupA_addToGroup, hk, List.filter_cons]

/-- An association-list lookup hit is a member of the list. -/
theorem mem_of_lookupA {α : Type} (gs : List (String × α)) (k : String) (v : α)
    (h : lookupA gs k = some v) : (k, v) ∈ gs := by
  induction gs with
  | nil => simp [lookupA] at h
  | cons hd tl ih =>
    obtain ⟨k1, v1⟩ := hd
    by_cases hk : k1 = k
    · simp only [lookupA, hk, if_true, Option.some.injEq] at h
      exact List.mem_cons.mpr (Or.inl (by rw [hk, h]))
    · simp only [lookupA, hk, if_false] at h
      exact List.mem_cons_of_mem _ (ih h)

/-- With duplicate-free keys, membership determines the lookup. -/
theorem lookupA_of_mem_nodup {α : Type} (gs : List (String × α))
    (hnd : (gs.map Prod.fst).Nodup) (k : String) (v : α) (h : (k, v) ∈ gs) :
    lookupA gs k = some v := by
  induction gs with
  | nil => simp at h
  | cons hd tl ih =>
    obtain ⟨k1, v1⟩ := hd
    have hnd' := List.nodup_cons.mp (by rw [List.map_cons] at hnd; exact hnd)
    rcases List.mem_cons.mp h with heq | hmem
    · have e1 : k = k1 := congrArg Prod.fst heq
      have e2 : v = v1 := congrArg Prod.snd heq
      simp [lookupA, e1.symm, e2]
    · have hk : ¬ k1 = k := by
        intro hh
        exact hnd'.1 (hh ▸ List.mem_map.mpr ⟨(k, v), hmem, rfl⟩)
      simp only [lookupA, hk, if_false]
      exact ih hnd'.2 hmem

/-- With duplicate-free keys, entries are determined by their key. -/
theorem fst_inj_of_nodup {α : Type} (l : List (String × α))
    (hnd : (l.map Prod.fst).Nodup) :
    ∀ p q : String × α, p ∈ l → q ∈ l → p.1 = q.1 → p = q := by
  induction l with
  | nil => intro p q hp _ _; simp at hp
  | cons hd tl ih =>
    intro p q hp hq hpq
    have hnd' := List.nodup_cons.mp (by rw [List.map_cons] at hnd; exact hnd)
    rcases List.mem_cons.mp hp with rfl | hp' <;> rcases List.mem_cons.mp hq with rfl | hq'
    · rfl
    · exact absurd (hpq ▸ List.mem_map.mpr ⟨q, hq', rfl⟩) hnd'.1
    · exact absurd (hpq ▸ List.mem_map.mpr ⟨p, hp', rfl⟩) hnd'.1
    · exact ih hnd'.2 p q hp' hq' hpq

/-- Length of the flattened hex character list: two characters per byte. -/
theorem byteHexFlatten_length (l : List Nat) :
    ((l.map byteHexChars).flatten).length = 2 * l.length := by
  induction l with
  | nil => simp
  | cons b tl ih =>
    simp [byteHexChars, ih]
    omega

/-- Hex encoding has two characters per byte. -/
theorem bytesToHex_length (l : List Nat) : (bytesToHex l).length = 2 * l.length :=
  byteHexFlatten_length l

/-- Appending a nonempty padding changes the hex encoding (the encodings
even have different lengths). -/
theorem bytesToHex_ne_append (bs pad : List Nat) (hpad : pad ≠ []) :
    bytesToHex bs ≠ bytesToHex (bs ++ pad) := by
  intro h
  have hlen := congrArg String.length h
  rw [bytesToHex_length, bytesToHex_length, List.length_append] at hlen
  have : pad.length = 0 := by omega
  exact hpad (List.length_eq_zero.mp this)

/-- C7: over any surviving node set (pairs of node id and record with
duplicate-free node ids, as produced by the dedup index), the fingerprint
grouping places two records with equal `features_hex` — the hex image of
`features_raw` — into one common group regardless of input order, and two
records whose raw feature bytes differ only by nonempty trailing zero
padding can never share a group, since their hex keys differ. -/
theorem c7_fingerprint_partition (nodes : List (String × NodeRecord))
    (hnd : (nodes.map Prod.fst).Nodup) (p q : String × NodeRecord)
    (hp : p ∈ nodes) (hq : q ∈ nodes) :
    (p.2.features_hex = q.2.features_hex →
      ∃ g, g ∈ fingerprintGroups nodes ∧ p.1 ∈ g.2 ∧ q.1 ∈ g.2) ∧
    (∀ bs pad : List Nat, pad ≠ [] → (∀ x ∈ pad, x = 0) →
      p.2.features_hex = bytesToHex bs → q.2.features_hex = bytesToHex (bs ++ pad) →
      ∀ g, g ∈ fingerprintGroups nodes → ¬ (p.1 ∈ g.2 ∧ q.1 ∈ g.2)) := by
  constructor
  · intro hfeq
    have hmemP : p.1 ∈ (lookupA (fingerprintGroups nodes) p.2.features_hex).getD [] := by
      have h := groupsFold_lookup nodes [] p.2.features_hex
      rw [show (lookupA (fingerprintGroups nodes) p.2.features_hex).getD [] =
            (lookupA (nodes.foldl (fun gs x => addToGroup gs x.2.features_hex x.1) [])
              p.2.features_hex).getD [] from rfl, h]
      simp only [lookupA, Option.getD_none, List.nil_append]
      exact List.mem_map.mpr ⟨p, List.mem_filter.mpr ⟨hp, by simp⟩, rfl⟩
    have hmemQ : q.1 ∈ (lookupA (fingerprintGroups nodes) p.2.features_hex).getD [] := by
      have h := groupsFold_lookup nodes [] p.2.features_hex
      rw [show (lookupA (fingerprintGroups nodes) p.2.features_hex).getD [] =
            (lookupA (nodes.foldl (fun gs x => addToGroup gs x.2.features_hex x.1) [])
              p.2.features_hex).getD [] from rfl, h]
      simp only [lookupA, Option.getD_none, List.nil_append]
      exact List.mem_map.mpr ⟨q, List.mem_filter.mpr ⟨hq, by simp [hfeq]⟩, rfl⟩
    cases hlk : lookupA (fingerprintGroups nodes) p.2.features_hex with
    | none => rw [hlk] at hmemP; simp at hmemP
    | some l =>
      refine ⟨(p.2.features_hex, l), mem_of_lookupA _ _ _ hlk, ?_, ?_⟩
      · simpa [hlk] using hmemP
      · simpa [hlk] using hmemQ
  · rintro bs pad hpad hzero hpb hqb g hg ⟨hpg, hqg⟩
    have hgnd : ((fingerprintGroups nodes).map Prod.fst).Nodup :=
      keys_groupsFold_nodup nodes [] (by simp)
    have hgl : lookupA (fingerprintGroups nodes) g.1 = some g.2 :=
      lookupA_of_mem_nodup _ hgnd g.1 g.2 hg
    have hchar : g.2 = (nodes.filter (fun x => x.2.features_hex == g.1)).map Prod.fst := by
      have h : (lookupA (fingerprintGroups nodes) g.1).getD [] =
          (lookupA ([] : List (String × List String)) g.1).getD [] ++
            (nodes.filter (fun x => x.2.features_hex == g.1)).map Prod.fst :=
        groupsFold_lookup nodes [] g.1
      rw [hgl] at h
      simpa [lookupA] using h
    have hpmem : p.1 ∈ (nodes.filter (fun x => x.2.features_hex == g.1)).map Prod.fst :=
      hchar ▸ hpg
    have hqmem : q.1 ∈ (nodes.filter (fun x => x.2.features_hex == g.1)).map Prod.fst :=
      hchar ▸ hqg
    obtain ⟨p', hp'f, hp'1⟩ := List.mem_map.mp hpmem
    obtain ⟨q', hq'f, hq'1⟩ := List.mem_map.mp hqmem
    have hp'filter := List.mem_filter.mp hp'f
    have hq'filter := List.mem_filter.mp hq'f
    have hp'eq : p' = p := fst_inj_of_nodup nodes hnd p' p hp'filter.1 hp (by rw [hp'1])
    have hq'eq : q' = q := fst_inj_of_nodup nodes hnd q' q hq'filter.1 hq (by rw [hq'1])
    have hpkey : p.2.features_hex = g.1 := by
      rw [← hp'eq]
      exact eq_of_beq hp'filter.2
    have hqkey : q.2.features_hex = g.1 := by
      rw [← hq'eq]
      exact eq_of_beq hq'filter.2
    have hcontra : bytesToHex bs = bytesToHex (bs ++ pad) := by
      rw [← hpb, ← hqb, hpkey, hqkey]
    exact bytesToHex_ne_append bs pad hpad hcontra

/-- C7 witness: two surviving records with byte-identical feature bytes
(hex key "0003") end up together in one fingerprint group. -/
theorem c7_witness :
    ∃ g, g ∈ fingerprintGroups
        [("n1", mkRecord "n1" "" 1 "0003"), ("n2", mkRecord "n2" "" 2 "0003")] ∧
      "n1" ∈ g.2 ∧ "n2" ∈ g.2 :=
  (c7_fingerprint_partition
    [("n1", mkRecord "n1" "" 1 "0003"), ("n2", mkRecord "n2" "" 2 "0003")]
    (by decide) ("n1", mkRecord "n1" "" 1 "0003") ("n2", mkRecord "n2" "" 2 "0003")
    (by decide) (by decide)).1 rfl

/-- Bound on the big-endian fold: with byte-bounded input, the accumulator
grows by at most a factor 256 per byte. -/
theorem foldlBytes_lt (bs : List Nat) :
    ∀ acc, (∀ b ∈ bs, b < 256) →
      List.foldl (fun a b => a * 256 + b) acc bs < (acc + 1) * 256 ^ bs.length := by
  induction bs with
  | nil => intro acc _; simp
  | cons b tl ih =>
    intro acc h
    have hb : b < 256 := h b (List.mem_cons_self _ _)
    have htl : ∀ x ∈ tl, x < 256 := fun x hx => h x (List.mem_cons_of_mem _ hx)
    have step := ih (acc * 256 + b) htl
    have h1 : acc * 256 + b + 1 ≤ (acc + 1) * 256 := by omega
    calc List.foldl (fun a x => a * 256 + x) acc (b :: tl)
        = List.foldl (fun a x => a * 256 + x) (acc * 256 + b) tl := by rfl
      _ < (acc * 256 + b + 1) * 256 ^ tl.length := step
      _ ≤ ((acc + 1) * 256) * 256 ^ tl.length := Nat.mul_le_mul_right _ h1
      _ = (acc + 1) * 256 ^ (b :: tl).length := by
          rw [List.length_cons, pow_succ]
          ring

/-- A byte-bounded byte string of length n encodes an integer below 2^(8n). -/
theorem intFromBytesBE_lt_two_pow (bs : List Nat) (h : ∀ b ∈ bs, b < 256) :
    intFromBytesBE bs < 2 ^ (8 * bs.length) := by
  have hfold := foldlBytes_lt bs 0 h
  have h256 : (256 : Nat) ^ bs.length = 2 ^ (8 * bs.length) := by
    rw [show (256 : Nat) = 2 ^ 8 from rfl, ← pow_mul]
  calc intFromBytesBE bs < (0 + 1) * 256 ^ bs.length := hfold
    _ = 2 ^ (8 * bs.length) := by rw [Nat.zero_add, Nat.one_mul, h256]

/-- Characterization of the `decode_features` loop: with enough fuel and a
bit-width bound, the loop is the fold of one dict assignment per set bit of
`val`, in ascending bit order, names and kinds taken at the offset `bit`. -/
theorem decodeFeaturesGo_spec (n : Nat) :
    ∀ (fuel val bit : Nat) (m : List (String × String)),
      val ≤ fuel → val < 2 ^ n →
      decodeFeaturesGo fuel val bit m =
        (((List.range n).filter (fun b => val.testBit b)).map
          (fun b => (featName (bit + b), featKind (bit + b)))).foldl
          (fun acc x => dictInsert acc x.1 x.2) m := by
  induction n with
  | zero =>
    intro fuel val bit m hf hv
    have hv0 : val = 0 := by
      have h1 : val < 1 := by simpa using hv
      omega
    subst hv0
    cases fuel <;> simp [decodeFeaturesGo]
  | succ n ih =>
    intro fuel val bit m hf hv
    by_cases hv0 : val = 0
    · subst hv0
      have hfilter : (List.range (n + 1)).filter (fun b => Nat.testBit 0 b) = [] := by
        simp [Nat.zero_testBit]
      rw [hfilter]
      cases fuel <;> simp [decodeFeaturesGo]
    · obtain ⟨fuel', rfl⟩ : ∃ f, fuel = f + 1 := ⟨fuel - 1, by omega⟩
      have hstep : decodeFeaturesGo (fuel' + 1) val bit m =
          decodeFeaturesGo fuel' (val / 2) (bit + 1)
            (if val % 2 = 1 then dictInsert m (featName bit) (featKind bit) else m) := by
        simp [decodeFeaturesGo, hv0]
      have hval2 : val / 2 ≤ fuel' := by omega
      have hvlt : val / 2 < 2 ^ n := by
        have h2 : val < 2 ^ n * 2 := by rw [← pow_succ]; exact hv
        omega
      rw [hstep, ih fuel' (val / 2) (bit + 1) _ hval2 hvlt]
      have harith : ∀ b : Nat, bit + (b + 1) = bit + 1 + b := fun b => by omega
      have hmapeq :
          ((List.range n).filter (fun b => (val / 2).testBit b)).map
              (fun b => (featName (bit + 1 + b), featKind (bit + 1 + b))) =
            (((List.range n).filter (fun b => (val / 2).testBit b)).map Nat.succ).map
              (fun b => (featName (bit + b), featKind (bit + b))) := by
        rw [List.map_map]
        congr 1
        funext b
        simp [Function.comp, harith b]
      rw [List.range_succ_eq_map, List.filter_cons]
      have hpred : ((fun b => val.testBit b) ∘ Nat.succ) = fun b => (val / 2).testBit b := by
        funext b
        simp [Function.comp, Nat.testBit_succ]
      have hshift : (List.filter (fun b => val.testBit b) (List.map Nat.succ (List.range n))) =
          ((List.range n).filter (fun b => (val / 2).testBit b)).map Nat.succ := by
        rw [List.filter_map, hpred]
      by_cases hodd : val % 2 = 1
      · have htb : val.testBit 0 = true := by
          rw [Nat.testBit_zero]
          simpa using hodd
        rw [htb]
        simp only [if_true, List.map_cons, List.foldl_cons, hshift, ← hmapeq, Nat.add_zero]
        simp [hodd]
      · have htb : val.testBit 0 = false := by
          rw [Nat.testBit_zero]
          simpa using hodd
        rw [htb]
        simp only [Bool.false_eq_true, if_false, hshift, ← hmapeq]
        simp [hodd]

/-- C3 (amended): `decode_features` is deterministic and total, and for
every feature-bitmap byte string it equals the fold that assigns, for each
set bit `b` of the big-endian integer in ascending order, the pair of the
fixed-table name for `b` (or the `unknown_bit_` sentinel if absent) and the
level, into an insertion-ordered mapping; because bits of an even/odd pair
share one name, such an assignment overwrites the earlier bit's entry
instead of adding a second pair (so a pair with both bits set yields one
entry, not one pair per set bit).  The level is optional exactly for odd
bit indices, and the name is exactly the table lookup with sentinel
fallback. -/
theorem c3_amended :
    (∀ bs : List Nat, (∀ b ∈ bs, b < 256) →
      decode_features bs =
        (((List.range (8 * bs.length)).filter (fun b => (intFromBytesBE bs).testBit b)).map
          (fun b => (featName b, featKind b))).foldl
          (fun acc x => dictInsert acc x.1 x.2) []) ∧
    (∀ b, featKind b = "optional" ↔ b % 2 = 1) ∧
    (∀ b, featName b = (FEATURE_BITS b).getD ("unknown_bit_" ++ toString b)) := by
  refine ⟨?_, ?_, fun b => rfl⟩
  · intro bs h
    have hlt := intFromBytesBE_lt_two_pow bs h
    have hspec := decodeFeaturesGo_spec (8 * bs.length) (intFromBytesBE bs)
      (intFromBytesBE bs) 0 [] (le_refl _) hlt
    rw [decode_features, hspec]
    congr 1
    apply List.map_congr_left
    intro b _
    simp
  · intro b
    constructor
    · intro h
      by_contra hb
      have hb0 : b % 2 = 0 := by omega
      simp [featKind, hb0] at h
    · intro h
      have hb0 : ¬ b % 2 = 0 := by omega
      simp [featKind, hb0]

/-- C3 witness: the amended characterization evaluated at the bitmap 0x03,
whose two set bits share one table name and fold into a single optional
entry. -/
theorem c3_witness :
    decode_features [3] =
      (((List.range (8 * [3].length)).filter (fun b => (intFromBytesBE [3]).testBit b)).map
        (fun b => (featName b, featKind b))).foldl (fun acc x => dictInsert acc x.1 x.2) [] :=
  c3_amended.1 [3] (by decide)

/-- The source's IPv6 group reader agrees with the reference group
rendering on the bytes from `off` on, whenever they are in bounds. -/
theorem ipv6GroupsGo_eq_spec (data : List Nat) :
    ∀ n off, off + 2 * n ≤ data.length →
      ipv6GroupsGo data off n = some (specIpv6Groups n (data.drop off)) := by
  intro n
  induction n with
  | zero => intro off h; simp [ipv6GroupsGo, specIpv6Groups]
  | succ n ih =>
    intro off h
    have h1 : off < data.length := by omega
    have h2 : off + 1 < data.length := by omega
    have hb1 : data[off]? = some data[off] := List.getElem?_eq_getElem h1
    have hb2 : data[off + 1]? = some data[off + 1] := List.getElem?_eq_getElem h2
    have hd1 : data.drop off = data[off] :: data.drop (off + 1) := List.drop_eq_getElem_cons h1
    have hd2 : data.drop (off + 1) = data[off + 1] :: data.drop (off + 2) := by
      have hh := List.drop_eq_getElem_cons h2
      rw [show off + 1 + 1 = off + 2 from by omega] at hh
      exact hh
    simp only [ipv6GroupsGo, hb1, hb2]
    rw [ih (off + 2) (by omega), hd1, hd2]
    simp [specIpv6Groups]

/-- One step of the reference address-list reader, in a rewrite-friendly
form. -/
theorem specAddrListGo_step (fuel : Nat) (l : List Nat) :
    specAddrListGo (fuel + 1) l =
      ((specAddrOne l).map (fun p => p.1 :: specAddrListGo fuel p.2)).getD [] := by
  cases h : specAddrOne l with
  | none => simp [specAddrListGo, h]
  | some p => simp [specAddrListGo, h]

/-- Reference reader, tag 1 with fewer than 6 body bytes: no descriptor. -/
theorem specAddrOne_tag1_short (rest : List Nat) (h : rest.length < 6) :
    specAddrOne (1 :: rest) = none := by
  simp [specAddrOne, h]

/-- Reference reader, tag 1 with a complete body: one IPv4 descriptor. -/
theorem specAddrOne_tag1 (rest : List Nat) (h : ¬ rest.length < 6) :
    specAddrOne (1 :: rest) =
      some (Addr.mk "ipv4"
        (String.intercalate "." ((rest.take 4).map toString) ++ ":" ++
          toString (intFromBytesBE (pySlice rest 4 6))), rest.drop 6) := by
  simp [specAddrOne, h]

/-- Reference reader, tag 2 with fewer than 18 body bytes: no descriptor. -/
theorem specAddrOne_tag2_short (rest : List Nat) (h : rest.length < 18) :
    specAddrOne (2 :: rest) = none := by
  simp [specAddrOne, h]

/-- Reference reader, tag 2 with a complete body: one IPv6 descriptor. -/
theorem specAddrOne_tag2 (rest : List Nat) (h : ¬ rest.length < 18) :
    specAddrOne (2 :: rest) =
      some (Addr.mk "ipv6"
        ("[" ++ String.intercalate ":" (specIpv6Groups 8 rest) ++ "]:" ++
          toString (intFromBytesBE (pySlice rest 16 18))), rest.drop 18) := by
  simp [specAddrOne, h]

/-- Reference reader, tag 3 with fewer than 12 body bytes: no descriptor. -/
theorem specAddrOne_tag3_short (rest : List Nat) (h : rest.length < 12) :
    specAddrOne (3 :: rest) = none := by
  simp [specAddrOne, h]

/-- Reference reader, tag 3 with a complete body: one Tor v2 descriptor. -/
theorem specAddrOne_tag3 (rest : List Nat) (h : ¬ rest.length < 12) :
    specAddrOne (3 :: rest) = some (Addr.mk "torv2" "torv2", rest.drop 12) := by
  simp [specAddrOne, h]

/-- Reference reader, tag 4 with fewer than 37 body bytes: no descriptor. -/
theorem specAddrOne_tag4_short (rest : List Nat) (h : rest.length < 37) :
    specAddrOne (4 :: rest) = none := by
  simp [specAddrOne, h]

/-- Reference reader, tag 4 with a complete body: one Tor v3 descriptor. -/
theorem specAddrOne_tag4 (rest : List Nat) (h : ¬ rest.length < 37) :
    specAddrOne (4 :: rest) = some (Addr.mk "torv3" "torv3_onion", rest.drop 37) := by
  simp [specAddrOne, h]

/-- Reference reader, tag 5 with no hostname-length byte: no descriptor. -/
theorem specAddrOne_tag5_nil : specAddrOne [5] = none := by
  simp [specAddrOne]

/-- Reference reader, tag 5 whose declared hostname and port do not fit:
no descriptor. -/
theorem specAddrOne_tag5_short (hlen : Nat) (rest2 : List Nat) (h : rest2.length < hlen + 2) :
    specAddrOne (5 :: hlen :: rest2) = none := by
  simp [specAddrOne, h]

/-- Reference reader, tag 5 with a complete body: one DNS descriptor. -/
theorem specAddrOne_tag5 (hlen : Nat) (rest2 : List Nat) (h : ¬ rest2.length < hlen + 2) :
    specAddrOne (5 :: hlen :: rest2) =
      some (Addr.mk "dns"
        (pyDecodeUtf8 (rest2.take hlen) ++ ":" ++
          toString (intFromBytesBE (pySlice rest2 hlen (hlen + 2)))), rest2.drop (hlen + 2)) := by
  simp [specAddrOne, h]

/-- Reference reader, unknown tag: no descriptor. -/
theorem specAddrOne_unknown (t : Nat) (rest : List Nat) (h1 : ¬ t = 1) (h2 : ¬ t = 2)
    (h3 : ¬ t = 3) (h4 : ¬ t = 4) (h5 : ¬ t = 5) : specAddrOne (t :: rest) = none := by
  simp [specAddrOne, h1, h2, h3, h4, h5]

/-- Refinement of the source loop by the reference reader: with fuel
covering the remaining bytes, the loop starting at `off` returns exactly
the reference descriptor list of the bytes from `off` on — it stops,
without failing, at the first position where no descriptor is fully
readable, keeping everything parsed before it. -/
theorem parseAddressesGo_eq_spec (data : List Nat) :
    ∀ fuel off, data.length - off ≤ fuel →
      parseAddressesGo data fuel off = some (specAddrListGo fuel (data.drop off)) := by
  intro fuel
  induction fuel with
  | zero =>
    intro off h
    have hge : ¬ off < data.length := by omega
    have hnil : data.drop off = [] := List.drop_eq_nil_of_le (by omega)
    rw [parseAddressesGo, hnil, if_neg hge]
    rfl
  | succ fuel ih =>
    intro off h
    rw [parseAddressesGo]
    by_cases hlt : off < data.length
    case neg =>
      have hnil : data.drop off = [] := List.drop_eq_nil_of_le (by omega)
      rw [hnil, if_neg hlt, specAddrListGo_step]
      rfl
    case pos =>
      have ht : data[off]? = some data[off] := List.getElem?_eq_getElem hlt
      have hd : data.drop off = data[off] :: data.drop (off + 1) := List.drop_eq_getElem_cons hlt
      have hrl : (data.drop (off + 1)).length = data.length - (off + 1) := List.length_drop _ _
      rw [hd, if_pos hlt]
      simp only [ht]
      by_cases h1 : data[off] = 1
      · rw [if_pos h1, h1]
        by_cases g : off + 1 + 6 > data.length
        · rw [if_pos g, specAddrListGo_step, specAddrOne_tag1_short _ (by omega)]
          rfl
        · have g' : ¬ (data.drop (off + 1)).length < 6 := by omega
          rw [if_neg g, ih (off + 7) (by omega), specAddrListGo_step, specAddrOne_tag1 _ g']
          simp only [Option.map_some', Option.getD_some]
          have e1 : pySlice data (off + 1) (off + 5) = (data.drop (off + 1)).take 4 := by
            unfold pySlice
            rw [show off + 5 - (off + 1) = 4 from by omega]
          have e2 : pySlice data (off + 5) (off + 7) = pySlice (data.drop (off + 1)) 4 6 := by
            unfold pySlice
            rw [List.drop_drop, show off + 7 - (off + 5) = 6 - 4 from by omega,
              show off + 5 = off + 1 + 4 from by omega]
          have e3 : data.drop (off + 7) = (data.drop (off + 1)).drop 6 := by
            rw [List.drop_drop]
          rw [e1, e2, e3]
      · rw [if_neg h1]
        by_cases h2 : data[off] = 2
        · rw [if_pos h2, h2]
          by_cases g : off + 1 + 18 > data.length
          · rw [if_pos g, specAddrListGo_step, specAddrOne_tag2_short _ (by omega)]
            rfl
          · have g' : ¬ (data.drop (off + 1)).length < 18 := by omega
            rw [if_neg g, ipv6GroupsGo_eq_spec data 8 (off + 1) (by omega),
              ih (off + 19) (by omega), specAddrListGo_step, specAddrOne_tag2 _ g']
            simp only [Option.map_some', Option.getD_some]
            have e2 : pySlice data (off + 17) (off + 19) = pySlice (data.drop (off + 1)) 16 18 := by
              unfold pySlice
              rw [List.drop_drop, show off + 19 - (off + 17) = 18 - 16 from by omega,
                show off + 17 = off + 1 + 16 from by omega]
            have e3 : data.drop (off + 19) = (data.drop (off + 1)).drop 18 := by
              rw [List.drop_drop]
            rw [e2, e3]
        · rw [if_neg h2]
          by_cases h3 : data[off] = 3
          · rw [if_pos h3, h3]
            by_cases g : off + 1 + 12 > data.length
            · rw [if_pos g, specAddrListGo_step, specAddrOne_tag3_short _ (by omega)]
              rfl
            · have g' : ¬ (data.drop (off + 1)).length < 12 := by omega
              rw [if_neg g, ih (off + 13) (by omega), specAddrListGo_step,
                specAddrOne_tag3 _ g']
              simp only [Option.map_some', Option.getD_some]
              have e3 : data.drop (off + 13) = (data.drop (off + 1)).drop 12 := by
                rw [List.drop_drop]
              rw [e3]
          · rw [if_neg h3]
            by_cases h4 : data[off] = 4
            · rw [if_pos h4, h4]
              by_cases g : off + 1 + 37 > data.length
              · rw [if_pos g, specAddrListGo_step, specAddrOne_tag4_short _ (by omega)]
                rfl
              · have g' : ¬ (data.drop (off + 1)).length < 37 := by omega
                rw [if_neg g, ih (off + 38) (by omega), specAddrListGo_step,
                  specAddrOne_tag4 _ g']
                simp only [Option.map_some', Option.getD_some]
                have e3 : data.drop (off + 38) = (data.drop (off + 1)).drop 37 := by
                  rw [List.drop_drop]
                rw [e3]
            · rw [if_neg h4]
              by_cases h5 : data[off] = 5
              · rw [if_pos h5, h5]
                by_cases g : off + 1 + 1 > data.length
                · have hnil2 : data.drop (off + 1) = [] := List.drop_eq_nil_of_le (by omega)
                  rw [if_pos g, hnil2, specAddrListGo_step, specAddrOne_tag5_nil]
                  rfl
                · have hh : off + 1 < data.length := by omega
                  have hb : data[off + 1]? = some data[off + 1] := List.getElem?_eq_getElem hh
                  have hd2 : data.drop (off + 1) = data[off + 1] :: data.drop (off + 2) := by
                    have hx := List.drop_eq_getElem_cons hh
                    rw [show off + 1 + 1 = off + 2 from by omega] at hx
                    exact hx
                  have hrl2 : (data.drop (off + 2)).length = data.length - (off + 2) :=
                    List.length_drop _ _
                  rw [if_neg g, hd2]
                  simp only [hb]
                  by_cases g2 : off + 2 + data[off + 1] + 2 > data.length
                  · rw [if_pos g2, specAddrListGo_step, specAddrOne_tag5_short _ _ (by omega)]
                    rfl
                  · have g2' : ¬ (data.drop (off + 2)).length < data[off + 1] + 2 := by omega
                    rw [if_neg g2, ih (off + 2 + data[off + 1] + 2) (by omega),
                      specAddrListGo_step, specAddrOne_tag5 _ _ g2']
                    simp only [Option.map_some', Option.getD_some]
                    have e1 : pySlice data (off + 2) (off + 2 + data[off + 1]) =
                        (data.drop (off + 2)).take data[off + 1] := by
                      unfold pySlice
                      rw [show off + 2 + data[off + 1] - (off + 2) = data[off + 1] from by omega]
                    have e2 : pySlice data (off + 2 + data[off + 1])
                          (off + 2 + data[off + 1] + 2) =
                        pySlice (data.drop (off + 2)) data[off + 1] (data[off + 1] + 2) := by
                      unfold pySlice
                      rw [List.drop_drop]
                      congr 1
                      omega
                    have e3 : data.drop (off + 2 + data[off + 1] + 2) =
                        (data.drop (off + 2)).drop (data[off + 1] + 2) := by
                      rw [List.drop_drop]
                      congr 1
                    rw [e1, e2, e3]
              · rw [if_neg h5, specAddrListGo_step,
                  specAddrOne_unknown _ _ h1 h2 h3 h4 h5]
                rfl

/-- C6: for every address-list byte string, `parse_addresses` succeeds and
returns exactly the descriptors fully readable before the first stopping
point, as given by the reference reader `specAddressList` written to the
specification's table: it stops, without failing, as soon as the remaining
bytes are insufficient for the declared body length of the current
descriptor or the tag byte is not in {1,2,3,4,5}, returning the
descriptors accumulated so far; in particular, for all byte values, one
complete IPv4 descriptor followed by 3 extra unreadable bytes yields
exactly one address and no error. -/
theorem c6_stops_at_first_unreadable :
    (∀ data : List Nat, parse_addresses data = some (specAddressList data)) ∧
    (∀ a b c d p1 p2 x y z : Nat,
      parse_addresses [1, a, b, c, d, p1, p2, x, y, z] =
        some [{ type := "ipv4",
                addr := String.intercalate "." [toString a, toString b, toString c, toString d]
                  ++ ":" ++ toString (p1 * 256 + p2) }]) := by
  have hgen : ∀ data : List Nat, parse_addresses data = some (specAddressList data) := by
    intro data
    rw [parse_addresses, specAddressList, parseAddressesGo_eq_spec data data.length 0 (by omega),
      List.drop_zero]
  refine ⟨hgen, ?_⟩
  intro a b c d p1 p2 x y z
  rw [hgen]
  have hstep2 : specAddrListGo 9 [x, y, z] = [] := by
    by_cases hx1 : x = 1
    · rw [show (9 : Nat) = 8 + 1 from rfl, specAddrListGo_step, hx1,
        specAddrOne_tag1_short _ (by simp)]
      rfl
    · by_cases hx2 : x = 2
      · rw [show (9 : Nat) = 8 + 1 from rfl, specAddrListGo_step, hx2,
          specAddrOne_tag2_short _ (by simp)]
        rfl
      · by_cases hx3 : x = 3
        · rw [show (9 : Nat) = 8 + 1 from rfl, specAddrListGo_step, hx3,
            specAddrOne_tag3_short _ (by simp)]
          rfl
        · by_cases hx4 : x = 4
          · rw [show (9 : Nat) = 8 + 1 from rfl, specAddrListGo_step, hx4,
              specAddrOne_tag4_short _ (by simp)]
            rfl
          · by_cases hx5 : x = 5
            · rw [show (9 : Nat) = 8 + 1 from rfl, specAddrListGo_step, hx5,
                specAddrOne_tag5_short y [z] (by simp)]
              rfl
            · rw [show (9 : Nat) = 8 + 1 from rfl, specAddrListGo_step,
                specAddrOne_unknown _ _ hx1 hx2 hx3 hx4 hx5]
              rfl
  show some (specAddrListGo 10 [1, a, b, c, d, p1, p2, x, y, z]) = _
  rw [show (10 : Nat) = 9 + 1 from rfl, specAddrListGo_step,
    specAddrOne_tag1 _ (by simp)]
  simp only [Option.map_some', Option.getD_some]
  simp [pySlice, intFromBytesBE, hstep2]
